import Mathlib

/-!
Shallow embedding of the `quest` object runtime core (src/core), covering the
`Number` dual-representation arithmetic (src/core/src/types/number.rs), the
`Boolean` operators (src/core/src/types/boolean.rs), the blanket `==` bridge
(src/core/src/attrs/operators.rs) and the `Parents` prototype-chain structure
(src/core/src/obj/attributes/parents.rs).

Modelling conventions:
* `i64` (the source's `IntegerType`) is embedded as `Int`; where the source can
  overflow (release-mode two's-complement wrap-around) the wrap is explicit via
  `wrap64`.
* `f64` (the source's `FloatType`) is embedded as the inductive `F64`: an exact
  rational together with the special values `inf`, `neginf` and `nan`.  The
  model is an exact idealisation: arithmetic on `fin` values is exact rational
  arithmetic (real `f64` rounds to 53 bits of precision), the two IEEE zeroes
  are merged into `fin 0`, and `i64 -> f64` casts are exact.  Operations whose
  exact value is not rational (`powf` with a non-integer exponent) are mapped
  to `nan` and documented at their definition.
* Rational arithmetic is implemented from `mkRat` and num/den projections so
  that every definition evaluates under kernel reduction; bridging lemmas
  relate these operations to Mathlib's field operations on `ℚ`.
* Rust panics (a failed `assert!`, an `.expect(..)`) are modelled as `none` of
  an `Option`-valued result; fallible operations return `Except`.
-/

set_option maxRecDepth 100000

namespace Quest

instance {ε α : Type} [DecidableEq ε] [DecidableEq α] : DecidableEq (Except ε α) := fun a b =>
  match a, b with
  | .ok x, .ok y =>
      if h : x = y then .isTrue (by rw [h]) else .isFalse (fun hc => by cases hc; exact h rfl)
  | .error x, .error y =>
      if h : x = y then .isTrue (by rw [h]) else .isFalse (fun hc => by cases hc; exact h rfl)
  | .ok _, .error _ => .isFalse (fun hc => by cases hc)
  | .error _, .ok _ => .isFalse (fun hc => by cases hc)

/-- Exact rational multiplication, computable under kernel reduction. -/
def qmul (a b : ℚ) : ℚ := mkRat (a.num * b.num) (a.den * b.den)

/-- Exact rational inverse (`0⁻¹ = 0`), computable under kernel reduction. -/
def qinv (a : ℚ) : ℚ :=
  if 0 ≤ a.num then mkRat (a.den : Int) a.num.natAbs
  else mkRat (-(a.den : Int)) a.num.natAbs

/-- Exact rational division, computable under kernel reduction. -/
def qdiv (a b : ℚ) : ℚ := qmul a (qinv b)

/-- Floor of a rational as an integer, computable under kernel reduction. -/
def qfloor (q : ℚ) : Int := q.num.fdiv (q.den : Int)

/-- Ceiling of a rational as an integer. -/
def qceil (q : ℚ) : Int := -((-q.num).fdiv (q.den : Int))

/-- Power with an integer exponent (`q ^ z`, with `0 ^ -n = 0`). -/
def qzpow (q : ℚ) (z : Int) : ℚ :=
  if 0 ≤ z then q ^ z.toNat else qinv (q ^ (-z).toNat)

/-- Model of Rust's `f64` (`FloatType` in number.rs): an exact rational plus
the IEEE special values.  Signed zero is merged into `fin 0`. -/
inductive F64 where
  | fin (q : ℚ)
  | inf
  | neginf
  | nan
deriving DecidableEq, Repr

/-- `i64::MIN`. -/
def i64min : Int := -(2 ^ 63)

/-- `i64::MAX`. -/
def i64max : Int := 2 ^ 63 - 1

/-- `u32::MAX` as an `i64` (the bound in `Number::pow_assign`). -/
def u32max : Int := 2 ^ 32 - 1

/-- Two's-complement wrap-around into the `i64` range (Rust release-mode
overflow semantics). -/
def wrap64 (z : Int) : Int := (z + 2 ^ 63).emod (2 ^ 64) - 2 ^ 63

/-- The smallest positive normal `f64`, `2^(-1022)`. -/
def minNormal : ℚ := mkRat 1 (2 ^ 1022)

/-- `f64::is_normal`: finite, nonzero, not subnormal (and within the finite
`f64` range, which every real `f64` satisfies).  The bounds
`2^(-1022) ≤ |q| < 2^1024` are phrased on the (reduced) numerator and
denominator so that the kernel can evaluate them. -/
def F64.isNormal : F64 → Bool
  | .fin q =>
      decide (q.num ≠ 0) && decide (q.den ≤ 2 ^ 1022 * q.num.natAbs) &&
        decide (q.num.natAbs < 2 ^ 1024 * q.den)
  | _ => false

/-- `f64::floor` (identity on the special values, as in IEEE). -/
def F64.floorF : F64 → F64
  | .fin q => .fin ((qfloor q : Int) : ℚ)
  | .inf => .inf
  | .neginf => .neginf
  | .nan => .nan

/-- IEEE `f64` equality: `nan` is not equal to anything, `inf = inf`. -/
def F64.feq : F64 → F64 → Bool
  | .fin a, .fin b => decide (a = b)
  | .inf, .inf => true
  | .neginf, .neginf => true
  | _, _ => false

/-- Rust's saturating `f64 as i64` cast: truncate toward zero, clamp to the
`i64` range, `nan` goes to `0`. -/
def F64.toI64sat : F64 → Int
  | .fin q => max i64min (min i64max (if 0 ≤ q then qfloor q else qceil q))
  | .inf => i64max
  | .neginf => i64min
  | .nan => 0

/-- The `i64 as f64` cast.  Exact in this model (the real cast rounds above
`2^53`). -/
def intToF (n : Int) : F64 := .fin (n : ℚ)

/-- `Number`'s tagged union `Inner` from number.rs: `Integer(i64)` or
`Float(f64)`. -/
inductive Number where
  | int (n : Int)
  | float (f : F64)
deriving DecidableEq, Repr

/-- `Number::NAN`. -/
def Number.NAN : Number := .float .nan

/-- Whether the `Float` representation is active. -/
def Number.isFloat : Number → Bool
  | .float _ => true
  | .int _ => false

/-- Whether the value is the float `NaN`. -/
def Number.isNan : Number → Bool
  | .float .nan => true
  | _ => false

/-- `impl From<FloatType> for Number` (number.rs:236-247):
`if f.is_normal() && f.floor() == f { assert!(...); Integer(f as i64) } else { Float(f) }`.
The `assert!(f.is_normal() && (f as IntegerType as FloatType) == f)` is
unconditional in the source; its failure (a whole normal float outside the
`i64` range) is a panic, modelled as `none`. -/
def Number.fromFloat (f : F64) : Option Number :=
  if f.isNormal && F64.feq f.floorF f then
    if F64.feq (intToF f.toI64sat) f then some (.int f.toI64sat) else none
  else
    some (.float f)

/-- `impl From<IntegerType> for Number`. -/
def Number.fromInt (n : Int) : Number := .int n

/-- IEEE division on the float model.  Exact on `fin` operands (the real
operation rounds); division by zero follows IEEE (`0/0 = nan`, `x/0 = ±inf`),
with the sign of zero not tracked. -/
def F64.fdiv : F64 → F64 → F64
  | .nan, _ => .nan
  | _, .nan => .nan
  | .fin a, .fin b =>
      if b = 0 then (if a = 0 then .nan else if 0 < a then .inf else .neginf)
      else .fin (qdiv a b)
  | .fin _, .inf => .fin 0
  | .fin _, .neginf => .fin 0
  | .inf, .fin b => if 0 ≤ b then .inf else .neginf
  | .neginf, .fin b => if 0 ≤ b then .neginf else .inf
  | .inf, .inf => .nan
  | .inf, .neginf => .nan
  | .neginf, .inf => .nan
  | .neginf, .neginf => .nan

/-- `impl DivAssign for Number` (number.rs:333-345).  The `Integer/Integer`
zero-divisor arm yields `Number::NAN`; the nonzero `Integer/Integer` arm goes
through `Self::from(l as f64 / r as f64)` (which may collapse back to
`Integer`); every other arm constructs `Inner::Float` directly. -/
def Number.divAssign : Number → Number → Option Number
  | .int l, .int r =>
      if r = 0 then some Number.NAN
      else Number.fromFloat (F64.fdiv (intToF l) (intToF r))
  | .int l, .float g => some (.float (F64.fdiv (intToF l) g))
  | .float f, .int r => some (.float (F64.fdiv f (intToF r)))
  | .float f, .float g => some (.float (F64.fdiv f g))

/-- IEEE `powf` on the float model.  `fin`-base/`fin`-integer-exponent cases
are exact; a non-integer exponent has an irrational (not exactly
representable) result in general and is mapped to `nan` (this also matches
IEEE for a negative base); special-value cases follow IEEE except that the
sign of an odd power of `-inf` and the sign of zero are not tracked. -/
def F64.fpow (a b : F64) : F64 :=
  match b with
  | .nan => .nan
  | .inf =>
      match a with
      | .fin q => if |q| < 1 then .fin 0 else if |q| = 1 then .fin 1 else .inf
      | .nan => .nan
      | _ => .inf
  | .neginf =>
      match a with
      | .fin q => if |q| < 1 then .inf else if |q| = 1 then .fin 1 else .fin 0
      | .nan => .nan
      | _ => .fin 0
  | .fin e =>
      if e = 0 then .fin 1
      else
        match a with
        | .nan => .nan
        | .inf => if 0 < e then .inf else .fin 0
        | .neginf => if 0 < e then .inf else .fin 0
        | .fin q =>
            if e.den = 1 then
              if 0 ≤ e.num then .fin (q ^ e.num.toNat)
              else if q = 0 then .inf else .fin (qzpow q e.num)
            else .nan

/-- `Number::pow_assign` (number.rs:412-422).  The guarded `Integer/Integer`
arm (`0 <= r && r <= u32::MAX as i64`, a condition on the exponent only) uses
`i64::pow` (wrap-around on overflow); every other arm promotes both operands
and goes through `powf(..).into()`, i.e. `Number::from` on the float
result. -/
def Number.powAssign : Number → Number → Option Number
  | .int l, .int r =>
      if 0 ≤ r ∧ r ≤ u32max then some (.int (wrap64 (l ^ r.toNat)))
      else Number.fromFloat (F64.fpow (intToF l) (intToF r))
  | .int l, .float g => Number.fromFloat (F64.fpow (intToF l) g)
  | .float f, .int r => Number.fromFloat (F64.fpow f (intToF r))
  | .float f, .float g => Number.fromFloat (F64.fpow f g)

/-- The promotion `Number -> f64` used by the fallback arms of
`pow_assign` (`l as FloatType`). -/
def Number.promote : Number → F64
  | .int n => intToF n
  | .float f => f

/-- Refinement comparison only: `pow_assign` as claim C4 words it, with the
integer-exponentiation guard on BOTH operands ("both a and b are non-negative
integer-represented values within u32 range"); otherwise `powf` on the
promoted operands. -/
def Number.powAssignSpec : Number → Number → Option Number
  | .int l, .int r =>
      if (0 ≤ l ∧ l ≤ u32max) ∧ (0 ≤ r ∧ r ≤ u32max) then
        some (.int (wrap64 (l ^ r.toNat)))
      else Number.fromFloat (F64.fpow (intToF l) (intToF r))
  | .int l, .float g => Number.fromFloat (F64.fpow (intToF l) g)
  | .float f, .int r => Number.fromFloat (F64.fpow f (intToF r))
  | .float f, .float g => Number.fromFloat (F64.fpow f g)

/-- Total-order comparison on `Ordering` for rationals. -/
def qcmp (a b : ℚ) : Ordering :=
  if a < b then .lt else if a = b then .eq else .gt

/-- Total-order comparison for `Int` (`i64::cmp`). -/
def icmp (l r : Int) : Ordering :=
  if l < r then .lt else if l = r then .eq else .gt

/-- `f64::partial_cmp`: `none` exactly when a `nan` is involved. -/
def F64.partialCmp : F64 → F64 → Option Ordering
  | .nan, _ => none
  | _, .nan => none
  | .fin a, .fin b => some (qcmp a b)
  | .fin _, .inf => some .lt
  | .fin _, .neginf => some .gt
  | .inf, .fin _ => some .gt
  | .inf, .inf => some .eq
  | .inf, .neginf => some .gt
  | .neginf, .fin _ => some .lt
  | .neginf, .inf => some .lt
  | .neginf, .neginf => some .eq

/-- `impl Ord for Number::cmp` (number.rs:194-205): integer/integer compares
the `i64`s; every mixed or float arm promotes and calls
`partial_cmp(..).expect(..)` — the `expect` panic (reached exactly on `nan`)
is modelled as `none`. -/
def Number.cmp : Number → Number → Option Ordering
  | .int l, .int r => some (icmp l r)
  | .int l, .float g => F64.partialCmp (intToF l) g
  | .float f, .int r => F64.partialCmp f (intToF r)
  | .float f, .float g => F64.partialCmp f g

/-- Extended rationals: the spec-side value space for ordering non-`nan`
numbers (finite values plus the two infinities). -/
inductive ERat where
  | ninf
  | fin (q : ℚ)
  | pinf
deriving DecidableEq, Repr

/-- Total order comparison on the extended rationals. -/
def ERat.ecmp : ERat → ERat → Ordering
  | .fin a, .fin b => qcmp a b
  | .ninf, .ninf => .eq
  | .ninf, _ => .lt
  | _, .ninf => .gt
  | .pinf, .pinf => .eq
  | _, .pinf => .lt
  | .pinf, _ => .gt

/-- The exact numeric value of a non-`nan` `Number` as an extended rational.
(`nan` is arbitrarily sent to `0`; every theorem using `xval` assumes no
`nan`.) -/
def Number.xval : Number → ERat
  | .int n => .fin (n : ℚ)
  | .float (.fin q) => .fin q
  | .float .inf => .pinf
  | .float .neginf => .ninf
  | .float .nan => .fin 0

/-- `impl PartialEq for Number` (number.rs:19-29): same-representation
equality, mixed arms compare `f == (n as f64)`. -/
def Number.beq : Number → Number → Bool
  | .int l, .int r => decide (l = r)
  | .float f, .float g => F64.feq f g
  | .int n, .float f => F64.feq f (intToF n)
  | .float f, .int n => F64.feq f (intToF n)

/-- `NotAnInteger(f64)` from number.rs:207-208. -/
structure NotAnInteger where
  f : F64
deriving DecidableEq, Repr

/-- `impl TryFrom<Number> for i64` (macro `impl_try_from_number`,
number.rs:218-234). -/
def i64TryFrom : Number → Except NotAnInteger Int
  | .int n => .ok n
  | .float f => .error ⟨f⟩

/-- Unsigned 64-bit view of an `i64` (two's complement bit pattern). -/
def toU64 (z : Int) : Nat := (z.emod (2 ^ 64)).toNat

/-- `i64` bitwise AND. -/
def land64 (a b : Int) : Int := wrap64 (Nat.land (toU64 a) (toU64 b))

/-- `i64` bitwise OR. -/
def lor64 (a b : Int) : Int := wrap64 (Nat.lor (toU64 a) (toU64 b))

/-- `i64` bitwise XOR. -/
def lxor64 (a b : Int) : Int := wrap64 (Nat.xor (toU64 a) (toU64 b))

/-- `i64` shift left; the shift amount is masked to `0..63` (release-mode
semantics). -/
def shl64 (a b : Int) : Int := wrap64 (toU64 a * 2 ^ (toU64 b % 64))

/-- `i64` arithmetic shift right (floor division by a power of two); the
shift amount is masked to `0..63`. -/
def shr64 (a b : Int) : Int := Int.fdiv a (2 ^ (toU64 b % 64))

/-- The in-place bitwise helper generated by `impl_bitwise_ops`
(number.rs:347-379):
`match self.0 { Float(n) => Err(NotAnInteger(n)),
Integer(mut n) => Ok(n.op_assign(i64::try_from(rhs)?)) }`.
`mut n` binds a local copy of the matched integer, so the computed result
(the discarded `let` below) never reaches `self`, which is returned
unchanged; the non-assign operators forward to this helper and return
`self`. -/
def Number.bitwiseAssign (op : Int → Int → Int) :
    Number → Number → Except NotAnInteger Number
  | .float n, _ => .error ⟨n⟩
  | .int n, rhs =>
      match i64TryFrom rhs with
      | .error e => .error e
      | .ok m =>
          let _ := op n m
          .ok (.int n)

/-- `impl BitAnd for Number` (via `impl_bitwise_ops`). -/
def Number.bitand : Number → Number → Except NotAnInteger Number :=
  Number.bitwiseAssign land64

/-- `impl BitOr for Number`. -/
def Number.bitor : Number → Number → Except NotAnInteger Number :=
  Number.bitwiseAssign lor64

/-- `impl BitXor for Number`. -/
def Number.bitxor : Number → Number → Except NotAnInteger Number :=
  Number.bitwiseAssign lxor64

/-- `impl Shl for Number`. -/
def Number.shl : Number → Number → Except NotAnInteger Number :=
  Number.bitwiseAssign shl64

/-- `impl Shr for Number`. -/
def Number.shr : Number → Number → Except NotAnInteger Number :=
  Number.bitwiseAssign shr64

/-! ### Parsing (`Number::from_str_radix`, `TryFrom<&str> for Number`) -/

/-- Rust's `std::num::ParseIntError` kinds relevant to `i64` parsing. -/
inductive ParseIntError where
  | empty
  | invalidDigit
  | posOverflow
  | negOverflow
deriving DecidableEq, Repr

/-- Rust's `std::num::ParseFloatError` kinds. -/
inductive ParseFloatError where
  | empty
  | invalid
deriving DecidableEq, Repr

/-- `FromStrError` from number.rs:61-66. -/
inductive FromStrError where
  | badInteger (e : ParseIntError)
  | badFloat (e : ParseFloatError)
  | badRadix (r : Nat)
deriving DecidableEq, Repr

/-- Whitespace test used by `str::trim` (the ASCII subset of
`char::is_whitespace`; the full Unicode set is not needed here). -/
def isWs (c : Char) : Bool :=
  c = ' ' || c = '\t' || c = '\n' || c = '\x0b' || c = '\x0c' || c = '\r'

/-- `str::trim`: drop whitespace from both ends. -/
def trimStr (l : List Char) : List Char :=
  ((l.dropWhile isWs).reverse.dropWhile isWs).reverse

/-- The underscore-stripping loop of `TryFrom<&str> for Number`
(number.rs:130-140): repeatedly removing the last `'_'` until none remains is
removal of every `'_'`, order preserved. -/
def removeUnderscores (l : List Char) : List Char :=
  l.filter (fun c => c != '_')

/-- `char::to_digit`'s underlying digit value (`0-9`, `a-z`, `A-Z`). -/
def digitVal (c : Char) : Option Nat :=
  if '0' ≤ c ∧ c ≤ '9' then some (c.toNat - '0'.toNat)
  else if 'a' ≤ c ∧ c ≤ 'z' then some (c.toNat - 'a'.toNat + 10)
  else if 'A' ≤ c ∧ c ≤ 'Z' then some (c.toNat - 'A'.toNat + 10)
  else none

/-- The digit-accumulation loop of Rust's `i64::from_str_radix`: each step
rejects non-digits of the radix and checks for `i64` overflow. -/
def runDigits (radix : Nat) (pos : Bool) : List Char → Int → Except ParseIntError Int
  | [], acc => .ok acc
  | c :: cs, acc =>
      match digitVal c with
      | none => .error .invalidDigit
      | some d =>
          if radix ≤ d then .error .invalidDigit
          else if pos then
            let acc' := acc * radix + d
            if i64max < acc' then .error .posOverflow else runDigits radix pos cs acc'
          else
            let acc' := acc * radix - d
            if acc' < i64min then .error .negOverflow else runDigits radix pos cs acc'

/-- Rust's `i64::from_str_radix`: optional sign (a bare sign is
`InvalidDigit`, an empty string is `Empty`), then radix digits with overflow
checks.  Underscores are NOT accepted (they are not digits). -/
def parseI64Radix (cs : List Char) (radix : Nat) : Except ParseIntError Int :=
  match cs with
  | [] => .error .empty
  | c :: rest =>
      if c = '+' then
        (if rest = [] then .error .invalidDigit else runDigits radix true rest 0)
      else if c = '-' then
        (if rest = [] then .error .invalidDigit else runDigits radix false rest 0)
      else runDigits radix true cs 0

/-- Rust's `i64::from_str` (`FromStr`), i.e. `from_str_radix(.., 10)`. -/
def parseI64 (cs : List Char) : Except ParseIntError Int := parseI64Radix cs 10

/-- Numeric value of a nonempty decimal digit string. -/
def natOfDigits (ds : List Char) : Nat :=
  ds.foldl (fun acc c => acc * 10 + (c.toNat - '0'.toNat)) 0

/-- Assemble the parsed float `(sign) ip.fp E e` as an exact rational;
magnitudes at or beyond `2^1024` overflow to the signed infinity (the model
boundary for Rust's parse of huge literals). -/
def assembleF64 (neg : Bool) (ip fp : List Char) (e : Int) : F64 :=
  let m : Nat := natOfDigits (ip ++ fp)
  let ex : Int := e - fp.length
  let mag : ℚ := if 0 ≤ ex then mkRat (m * 10 ^ ex.toNat) 1 else mkRat m (10 ^ (-ex).toNat)
  let q : ℚ := if neg then -mag else mag
  if q.num.natAbs < 2 ^ 1024 * q.den then .fin q
  else if neg then .neginf else .inf

/-- Rust's `f64::from_str`: optional sign; `inf`/`infinity`/`nan`
case-insensitively; otherwise `digits [. digits] [e|E [sign] digits]` with at
least one mantissa digit and nothing trailing. -/
def parseF64 (cs : List Char) : Except ParseFloatError F64 :=
  match cs with
  | [] => .error .empty
  | _ =>
      let (neg, rest) :=
        match cs with
        | '+' :: r => (false, r)
        | '-' :: r => (true, r)
        | r => (false, r)
      let low := rest.map Char.toLower
      if low = ['i', 'n', 'f'] ∨ low = ['i', 'n', 'f', 'i', 'n', 'i', 't', 'y'] then
        .ok (if neg then .neginf else .inf)
      else if low = ['n', 'a', 'n'] then .ok .nan
      else
        let (ip, r1) := rest.span Char.isDigit
        let (fp, r2) :=
          match r1 with
          | '.' :: r1' => r1'.span Char.isDigit
          | _ => ([], r1)
        if ip = [] ∧ fp = [] then .error .invalid
        else
          match r2 with
          | [] => .ok (assembleF64 neg ip fp 0)
          | e :: r3 =>
              if e = 'e' ∨ e = 'E' then
                let (eneg, r4) :=
                  match r3 with
                  | '+' :: r => (false, r)
                  | '-' :: r => (true, r)
                  | r => (false, r)
                let (ed, r5) := r4.span Char.isDigit
                if ed = [] ∨ r5 ≠ [] then .error .invalid
                else
                  .ok (assembleF64 neg ip fp
                        (if eneg then -(natOfDigits ed : Int) else (natOfDigits ed : Int)))
              else .error .invalid

/-- The underscore-free parsing pipeline of `TryFrom<&str> for Number`
(number.rs:142-146): `i64::from_str`, falling back to `f64::from_str` mapped
through `Number::from` (whose assert-panic propagates as `none`), with the
float error kept as `BadFloat`. -/
def parseIntFloat (t : List Char) : Option (Except FromStrError Number) :=
  match parseI64 t with
  | .ok n => some (.ok (.int n))
  | .error _ =>
      match parseF64 t with
      | .ok f => (Number.fromFloat f).map Except.ok
      | .error e => some (.error (.badFloat e))

/-- `TryFrom<&str> for Number` (number.rs:122-147): trim, and if any `'_'` is
present delete them all and recurse.  The recursive call trims again and, the
input now being underscore-free, parses; that single-step recursion is
inlined here. -/
def Number.tryFrom (s : List Char) : Option (Except FromStrError Number) :=
  let t := trimStr s
  if '_' ∈ t then parseIntFloat (trimStr (removeUnderscores t))
  else parseIntFloat t

/-- `Number::from_str_radix` (number.rs:111-119): radices outside `[2, 36]`
are `BadRadix`; otherwise `i64::from_str_radix(inp.trim(), radix)` mapped
into `Number`, with integer-parse failures as `BadInteger`.  No underscore
stripping happens here. -/
def Number.fromStrRadix (s : List Char) (radix : Nat) : Except FromStrError Number :=
  if radix < 2 ∨ 36 < radix then .error (.badRadix radix)
  else
    match parseI64Radix (trimStr s) radix with
    | .ok n => .ok (Number.fromInt n)
    | .error e => .error (.badInteger e)

/-! ### Objects, `Boolean` operators and the `==` bridge -/

/-- The error kinds of error.rs relevant here. -/
inductive QErr where
  | typeError
  | keyError
  | messaged
deriving DecidableEq, Repr

/-- A native payload held by an object cell (the downcast target). -/
inductive Payload where
  | num (n : Number)
  | boolean (b : Bool)
  | other (tag : Nat)
deriving DecidableEq, Repr

/-- Modelled from the spec: the `Object` cell (obj internals are not under
src/) — an identity (`id`, used by `is_identical`), a native payload (the
`downcast_ref` target), and what the object's `@num`/`@bool` conversion
protocol would produce (`none` when the conversion fails), used only by
`downcast_call`. -/
structure Obj where
  id : Nat
  payload : Payload
  convNum : Option Number
  convBool : Option Bool
deriving DecidableEq, Repr

/-- Modelled from the spec: `Object::downcast_ref::<Number>` — a pure payload
view, never invoking the conversion protocol (spec §4.1). -/
def downcastNum (o : Obj) : Option Number :=
  match o.payload with
  | .num n => some n
  | _ => none

/-- Modelled from the spec: `Object::downcast_ref::<Boolean>`. -/
def downcastBool (o : Obj) : Option Bool :=
  match o.payload with
  | .boolean b => some b
  | _ => none

/-- Modelled from the spec: `downcast_call::<Boolean>` / `with_ref_call`
(spec §4.3) — downcast if the payload already is a `Boolean`, otherwise
invoke the `@bool` conversion and retry; a failing conversion is a
`TypeError`. -/
def downcastCallBool (o : Obj) : Except QErr Bool :=
  match downcastBool o with
  | some b => .ok b
  | none =>
      match o.convBool with
      | some b => .ok b
      | none => .error .typeError

/-- `operators::BitXor for Boolean` (boolean.rs:409-421): the receiver must
hold a `Boolean` (`try_with_ref`), the argument is converted
(`with_ref_call`), and the XOR of the two values is returned. -/
def booleanBitXor (this arg : Obj) : Except QErr Bool :=
  match downcastBool this with
  | none => .error .typeError
  | some lhs => (downcastCallBool arg).map (fun rhs => xor lhs rhs)

/-- `operators::BitXorAssign for Boolean` (boolean.rs:423-442).  For a
non-identical argument the source stores `lhs.0 |= rhs.0` — OR, not XOR —
although its own comment (line 429) documents the XOR table; an identical
receiver/argument stores `false`.  The receiver is returned. -/
def booleanBitXorAssign (this arg : Obj) : Except QErr Obj :=
  if ¬ this.id = arg.id then
    match downcastBool this with
    | none => .error .typeError
    | some lhs =>
        (downcastCallBool arg).map
          (fun rhs => { this with payload := .boolean (lhs || rhs) })
  else
    match downcastBool this with
    | none => .error .typeError
    | some _ => .ok { this with payload := .boolean false }

/-- `impls::eql` for `Number` (number.rs:568-573): the receiver must hold a
`Number` (`try_downcast_ref`), the argument is only `downcast_ref`'d — never
converted — and a non-`Number` argument yields `false`. -/
def numberEql (this arg : Obj) : Except QErr Bool :=
  match downcastNum this with
  | none => .error .typeError
  | some n => .ok (((downcastNum arg).map (fun m => Number.beq n m)).getD false)

/-- `operators::Eql for Boolean` (boolean.rs:311-328): identity first
(`is_identical`), then the un-coerced downcast of the argument
(`Some(lhs) == rhs`, which is `false` for a non-`Boolean` argument). -/
def booleanEql (this arg : Obj) : Except QErr Bool :=
  if this.id = arg.id then .ok true
  else
    match downcastBool this with
    | none => .error .typeError
    | some lhs => .ok (((downcastBool arg).map (fun r => decide (lhs = r))).getD false)

/-- The blanket `QsEql` implementation (operators.rs:140-153): for any
`T : PartialEq`, `==` downcasts argument 0 without conversion and answers
`false` on a type mismatch. -/
def qsEql {α : Type} [DecidableEq α] (downcast : Obj → Option α) (self : α) (arg : Obj) :
    Bool :=
  match downcast arg with
  | some v => decide (self = v)
  | none => false

/-! ### `Parents` (prototype chain) -/

/-- The attribute environment of the parent objects: what
`has_attr_lit`/`get_value_lit`/`has_attr`/`get_value` answer on each parent
(parents are abstracted by their identity, values by `Nat`). -/
structure PEnv where
  hasLit : Nat → String → Except QErr Bool
  getLit : Nat → String → Except QErr (Option Nat)
  hasObj : Nat → Nat → Except QErr Bool
  getObj : Nat → Nat → Except QErr (Option Nat)

/-- `Parents`' internal `Inner` enum (parents.rs:11-16): `None`,
`Builtin(Vec<Object>)`, or `Object(obj)`.  The `Object` state's holder is
modelled by its identity together with the list it holds (the spec: the
holder is "a single object, conventionally a list, holding the prototypes";
`List` itself is not under src/). -/
inductive PInner where
  | pnone
  | builtin (parents : List Nat)
  | object (oid : Nat) (parents : List Nat)
deriving DecidableEq, Repr

/-- The parent list held by each representation. -/
def PInner.plist : PInner → List Nat
  | .pnone => []
  | .builtin v => v
  | .object _ v => v

/-- Representation progress along `None → Builtin → Object`. -/
def PInner.rank : PInner → Nat
  | .pnone => 0
  | .builtin _ => 1
  | .object _ _ => 2

/-- `Parents::with_iter` (parents.rs:118-125): `None` iterates nothing,
`Builtin` iterates the vector, `Object` does `downcast_call::<List>` on the
holder and iterates the list.  Modelled from the spec for the `Object` arm:
the conventional list holder converts to its own elements (`List` is not
under src/). -/
def PInner.withIter {R : Type} (p : PInner) (f : List Nat → Except QErr R) :
    Except QErr R :=
  match p with
  | .pnone => f []
  | .builtin parents => f parents
  | .object _ elems => f elems

/-- The early-return search loop of `Parents::has_lit` (parents.rs:135-142). -/
def hasLitLoop (env : PEnv) (k : String) : List Nat → Except QErr Bool
  | [] => .ok false
  | p :: ps =>
      match env.hasLit p k with
      | .error e => .error e
      | .ok true => .ok true
      | .ok false => hasLitLoop env k ps

/-- The early-return search loop of `Parents::get_lit` (parents.rs:149-156). -/
def getLitLoop (env : PEnv) (k : String) : List Nat → Except QErr (Option Nat)
  | [] => .ok none
  | p :: ps =>
      match env.getLit p k with
      | .error e => .error e
      | .ok (some v) => .ok (some v)
      | .ok none => getLitLoop env k ps

/-- The early-return search loop of `Parents::has_obj` (parents.rs:160-167). -/
def hasObjLoop (env : PEnv) (k : Nat) : List Nat → Except QErr Bool
  | [] => .ok false
  | p :: ps =>
      match env.hasObj p k with
      | .error e => .error e
      | .ok true => .ok true
      | .ok false => hasObjLoop env k ps

/-- The early-return search loop of `Parents::get_obj` (parents.rs:171-178). -/
def getObjLoop (env : PEnv) (k : Nat) : List Nat → Except QErr (Option Nat)
  | [] => .ok none
  | p :: ps =>
      match env.getObj p k with
      | .error e => .error e
      | .ok (some v) => .ok (some v)
      | .ok none => getObjLoop env k ps

/-- `Parents::keys` (parents.rs:127-129). -/
def Parents.keys (p : PInner) : Except QErr (List Nat) :=
  p.withIter (fun it => .ok it)

/-- `Parents::has_lit` (parents.rs:131-143). -/
def Parents.hasLit (env : PEnv) (p : PInner) (k : String) : Except QErr Bool :=
  p.withIter (hasLitLoop env k)

/-- `Parents::get_lit` (parents.rs:145-157). -/
def Parents.getLit (env : PEnv) (p : PInner) (k : String) : Except QErr (Option Nat) :=
  p.withIter (getLitLoop env k)

/-- `Parents::has_obj` (parents.rs:159-168). -/
def Parents.hasObj (env : PEnv) (p : PInner) (k : Nat) : Except QErr Bool :=
  p.withIter (hasObjLoop env k)

/-- `Parents::get_obj` (parents.rs:170-179). -/
def Parents.getObj (env : PEnv) (p : PInner) (k : Nat) : Except QErr (Option Nat) :=
  p.withIter (getObjLoop env k)

/-- `Parents::add_parent` (parents.rs:91-100): `None` becomes
`Builtin([parent])`, `Builtin` pushes, `Object` calls
`holder.call_attr_lit("push", [parent])`.  The push on the conventional list
holder is modelled from the spec as appending (always succeeding; `List` is
not under src/). -/
def Parents.addParent (p : PInner) (parent : Nat) : PInner :=
  match p with
  | .pnone => .builtin [parent]
  | .builtin v => .builtin (v ++ [parent])
  | .object oid v => .object oid (v ++ [parent])

/-- `Parents::to_object` (parents.rs:101-116): `None` installs a fresh empty
holder, `Builtin` moves its vector into a fresh holder, `Object` returns the
existing holder; `fresh` is the identity given to a newly created holder
object. -/
def Parents.toObject (p : PInner) (fresh : Nat) : Nat × PInner :=
  match p with
  | .pnone => (fresh, .object fresh [])
  | .builtin v => (fresh, .object fresh v)
  | .object oid v => (oid, .object oid v)

/-! ### Bridging lemmas between the kernel-executable rational operations and
Mathlib's field operations on `ℚ` -/

theorem qmul_eq (a b : ℚ) : qmul a b = a * b := by
  conv_rhs => rw [← Rat.num_div_den a, ← Rat.num_div_den b, div_mul_div_comm]
  unfold qmul
  rw [Rat.mkRat_eq_div]
  push_cast
  ring

theorem qinv_eq (a : ℚ) : qinv a = a⁻¹ := by
  have hD : (0 : ℚ) < (a.den : ℚ) := by exact_mod_cast a.den_pos
  by_cases h0 : a.num = 0
  · have ha : a = 0 := Rat.num_eq_zero.mp h0
    rw [ha]
    simp [qinv, Rat.mkRat_eq_div]
  · have habs : ((a.num.natAbs : ℕ) : ℚ) = |(a.num : ℚ)| := by
      rw [Int.cast_natAbs]
      push_cast
      rfl
    have hA : (a.num : ℚ) ≠ 0 := Int.cast_ne_zero.mpr h0
    have hinv : a⁻¹ = (a.den : ℚ) / (a.num : ℚ) := by
      conv_lhs => rw [← Rat.num_div_den a]
      rw [inv_div]
    rcases lt_or_gt_of_ne h0 with hneg | hpos
    · have hnn : ¬ 0 ≤ a.num := not_le.mpr hneg
      have hAneg : (a.num : ℚ) < 0 := by exact_mod_cast hneg
      rw [qinv, if_neg hnn, Rat.mkRat_eq_div, habs, abs_of_neg hAneg, hinv]
      push_cast
      rw [div_neg, neg_div, neg_neg]
    · have hnn : 0 ≤ a.num := le_of_lt hpos
      have hApos : (0 : ℚ) < (a.num : ℚ) := by exact_mod_cast hpos
      rw [qinv, if_pos hnn, Rat.mkRat_eq_div, habs, abs_of_pos hApos, hinv]
      push_cast
      ring

theorem qdiv_eq (a b : ℚ) : qdiv a b = a / b := by
  rw [qdiv, qmul_eq, qinv_eq, div_eq_mul_inv]

theorem qfloor_intCast (z : ℤ) : qfloor ((z : ℚ)) = z := by
  simp [qfloor, Rat.num_intCast, Rat.den_intCast, Int.fdiv_one]

theorem qceil_intCast (z : ℤ) : qceil ((z : ℚ)) = z := by
  simp [qceil, Rat.num_intCast, Rat.den_intCast, Int.fdiv_one]

theorem abs_eq_natAbs_div_den (q : ℚ) : |q| = (q.num.natAbs : ℚ) / (q.den : ℚ) := by
  have hD : (0 : ℚ) < (q.den : ℚ) := by exact_mod_cast q.den_pos
  conv_lhs => rw [← Rat.num_div_den q]
  rw [abs_div, abs_of_pos hD, Int.cast_natAbs]
  push_cast
  rfl

theorem minNormal_le_abs_iff (q : ℚ) :
    minNormal ≤ |q| ↔ q.den ≤ 2 ^ 1022 * q.num.natAbs := by
  have hD : (0 : ℚ) < (q.den : ℚ) := by exact_mod_cast q.den_pos
  have hP : (0 : ℚ) < ((2 ^ 1022 : ℕ) : ℚ) := by positivity
  rw [minNormal, Rat.mkRat_eq_div, abs_eq_natAbs_div_den, div_le_div_iff₀ hP hD]
  push_cast
  rw [one_mul, mul_comm]
  exact_mod_cast Iff.rfl

/-! ### Evaluation lemmas for `Number::from(f64)` -/

theorem fromFloat_notNormalWhole (f : F64)
    (h : (f.isNormal && F64.feq f.floorF f) = false) :
    Number.fromFloat f = some (.float f) := by
  simp [Number.fromFloat, h]

theorem fromFloat_nonwhole (q : ℚ) (h : q.den ≠ 1) :
    Number.fromFloat (.fin q) = some (.float (.fin q)) := by
  apply fromFloat_notNormalWhole
  have hfl : F64.feq (F64.floorF (.fin q)) (.fin q) = false := by
    simp only [F64.floorF, F64.feq, decide_eq_false_iff_not]
    intro hc
    have := congrArg Rat.den hc
    rw [Rat.den_intCast] at this
    exact h this.symm
  simp [hfl]

theorem fromFloat_zero : Number.fromFloat (.fin 0) = some (.float (.fin 0)) := by
  decide

theorem fromFloat_intCast (z : ℤ) (h0 : z ≠ 0) (hmin : i64min ≤ z) (hmax : z ≤ i64max) :
    Number.fromFloat (.fin (z : ℚ)) = some (.int z) := by
  have h1 : 1 ≤ z.natAbs := Int.natAbs_pos.mpr h0
  have h2 : z.natAbs ≤ 2 ^ 63 := by
    have e63 : (2 : ℤ) ^ 63 = 9223372036854775808 := by norm_num
    have e63n : (2 : ℕ) ^ 63 = 9223372036854775808 := by norm_num
    rw [i64min] at hmin
    rw [i64max] at hmax
    omega
  have hnormal : F64.isNormal (.fin (z : ℚ)) = true := by
    simp only [F64.isNormal, Rat.num_intCast, Rat.den_intCast, Bool.and_eq_true,
      decide_eq_true_eq]
    refine ⟨⟨h0, ?_⟩, ?_⟩
    · calc (1 : ℕ) ≤ z.natAbs := h1
        _ ≤ 2 ^ 1022 * z.natAbs := Nat.le_mul_of_pos_left _ (by positivity)
    · calc z.natAbs ≤ 2 ^ 63 := h2
        _ < 2 ^ 1024 := Nat.pow_lt_pow_right (by norm_num) (by norm_num)
        _ ≤ 2 ^ 1024 * 1 := by omega
  have hfloor : F64.feq (F64.floorF (.fin (z : ℚ))) (.fin (z : ℚ)) = true := by
    simp [F64.floorF, F64.feq, qfloor_intCast]
  have hsat : F64.toI64sat (.fin (z : ℚ)) = z := by
    have hbr : (if (0 : ℚ) ≤ (z : ℚ) then qfloor ((z : ℚ)) else qceil ((z : ℚ))) = z := by
      split
      · exact qfloor_intCast z
      · exact qceil_intCast z
    simp only [F64.toI64sat, hbr, min_eq_right hmax, max_eq_right hmin]
  have hassert : F64.feq (intToF (F64.toI64sat (.fin (z : ℚ)))) (.fin (z : ℚ)) = true := by
    rw [hsat]
    simp [intToF, F64.feq]
  simp only [Number.fromFloat, hnormal, hfloor, hassert, Bool.and_self, if_true]
  rw [hsat]

theorem fromFloat_intCast_out (z : ℤ) (hout : z < i64min ∨ i64max < z)
    (hbig : z.natAbs < 2 ^ 1024) :
    Number.fromFloat (.fin (z : ℚ)) = none := by
  have hm : i64min = -9223372036854775808 := by norm_num [i64min]
  have hM : i64max = 9223372036854775807 := by norm_num [i64max]
  have h0 : z ≠ 0 := by
    rcases hout with h | h
    · rw [hm] at h; omega
    · rw [hM] at h; omega
  have h1 : 1 ≤ z.natAbs := Int.natAbs_pos.mpr h0
  have hnormal : F64.isNormal (.fin (z : ℚ)) = true := by
    simp only [F64.isNormal, Rat.num_intCast, Rat.den_intCast, Bool.and_eq_true,
      decide_eq_true_eq]
    refine ⟨⟨h0, ?_⟩, ?_⟩
    · calc (1 : ℕ) ≤ z.natAbs := h1
        _ ≤ 2 ^ 1022 * z.natAbs := Nat.le_mul_of_pos_left _ (by positivity)
    · omega
  have hfloor : F64.feq (F64.floorF (.fin (z : ℚ))) (.fin (z : ℚ)) = true := by
    simp [F64.floorF, F64.feq, qfloor_intCast]
  have hsat : F64.toI64sat (.fin (z : ℚ)) ≠ z := by
    have hbr : (if (0 : ℚ) ≤ (z : ℚ) then qfloor ((z : ℚ)) else qceil ((z : ℚ))) = z := by
      split
      · exact qfloor_intCast z
      · exact qceil_intCast z
    simp only [F64.toI64sat, hbr]
    rcases hout with h | h
    · have hz64 : z ≤ i64max := by rw [hm] at h; rw [hM]; omega
      rw [min_eq_right hz64, max_eq_left (le_of_lt h)]
      rw [hm] at h ⊢
      omega
    · rw [min_eq_left (le_of_lt h)]
      rw [max_eq_right (show i64min ≤ i64max by rw [hm, hM]; omega)]
      rw [hM] at h ⊢
      omega
  have hassert : F64.feq (intToF (F64.toI64sat (.fin (z : ℚ)))) (.fin (z : ℚ)) = false := by
    simp only [intToF, F64.feq, decide_eq_false_iff_not]
    intro hc
    exact hsat (Int.cast_injective hc)
  simp [Number.fromFloat, hnormal, hfloor, hassert]

/-! ### Claim C1 (division) -/

/-- Claim C1, counterexample: dividing the Integer-represented `4` by the
Integer-represented `2` yields the Integer-represented `2` — not a
float-representation result as the claim states (the `Integer/Integer` arm of
`div_assign` funnels the quotient through `Number::from`, which collapses a
whole normal float back to `Integer`). -/
theorem C1_counterexample :
    Number.divAssign (.int 4) (.int 2) = some (.int 2) ∧
      (Number.int 2).isFloat = false := by
  decide

/-- Claim C1 (corrected): division always computes the float quotient, but the
result representation is `Float` only when at least one operand is
float-represented.  For two integer-represented operands: a zero divisor
yields the float `NaN` (not an error); a nonzero divisor feeds the exact
quotient back through `Number::from`, so a non-whole quotient stays `Float`,
a zero quotient stays `Float` (zero is not a normal float), and a whole
nonzero quotient within the `i64` range collapses to the `Integer`
representation. -/
theorem C1_amended :
    (∀ a b : Number, a.isFloat = true ∨ b.isFloat = true →
        ∃ g, Number.divAssign a b = some (.float g)) ∧
    (∀ l : Int, Number.divAssign (.int l) (.int 0) = some Number.NAN) ∧
    (∀ l r : Int, r ≠ 0 → ((l : ℚ) / (r : ℚ)).den ≠ 1 →
        Number.divAssign (.int l) (.int r) = some (.float (.fin ((l : ℚ) / (r : ℚ))))) ∧
    (∀ r : Int, r ≠ 0 → Number.divAssign (.int 0) (.int r) = some (.float (.fin 0))) ∧
    (∀ l r z : Int, r ≠ 0 → (l : ℚ) / (r : ℚ) = (z : ℚ) → z ≠ 0 →
        i64min ≤ z → z ≤ i64max →
        Number.divAssign (.int l) (.int r) = some (.int z)) := by
  have hdiv : ∀ l r : Int, r ≠ 0 →
      Number.divAssign (.int l) (.int r) = Number.fromFloat (.fin ((l : ℚ) / (r : ℚ))) := by
    intro l r hr
    have hrq : ((r : ℚ)) ≠ 0 := Int.cast_ne_zero.mpr hr
    simp only [Number.divAssign, if_neg hr, intToF, F64.fdiv, if_neg hrq, qdiv_eq]
  refine ⟨?_, ?_, ?_, ?_, ?_⟩
  · intro a b hf
    cases a with
    | int l =>
        cases b with
        | int r => simp [Number.isFloat] at hf
        | float g => exact ⟨_, rfl⟩
    | float f =>
        cases b with
        | int r => exact ⟨_, rfl⟩
        | float g => exact ⟨_, rfl⟩
  · intro l
    simp [Number.divAssign]
  · intro l r hr hden
    rw [hdiv l r hr]
    exact fromFloat_nonwhole _ hden
  · intro r hr
    rw [hdiv 0 r hr]
    norm_num
    exact fromFloat_zero
  · intro l r z hr hq hz hmin hmax
    rw [hdiv l r hr, hq]
    exact fromFloat_intCast z hz hmin hmax

/-- Claim C1, witness: concrete instances of the amended claim — a
float-operand division is Float-tagged, `7 / 0` on integers is `NaN`, `1 / 3`
stays Float, and `0 / 5` stays Float (zero quotient). -/
theorem C1_witness :
    (∃ g, Number.divAssign (.float (.fin 3)) (.int 2) = some (.float g)) ∧
      Number.divAssign (.int 7) (.int 0) = some Number.NAN ∧
      Number.divAssign (.int 1) (.int 3) =
        some (.float (.fin ((1 : ℚ) / (3 : ℚ)))) ∧
      Number.divAssign (.int 0) (.int 5) = some (.float (.fin 0)) := by
  refine ⟨C1_amended.1 (.float (.fin 3)) (.int 2) (Or.inl (by decide)),
    C1_amended.2.1 7, ?_, C1_amended.2.2.2.1 5 (by decide)⟩
  have h := C1_amended.2.2.1 1 3 (by decide) (by norm_num)
  push_cast at h ⊢
  exact h

/-! ### Claim C2 (`Number::from(f64)`) -/

/-- Claim C2, counterexample: `Number::from(0.0)` yields the Float
representation of zero, not `Integer(0)` as the claim states — the source
guards the collapse with `f.is_normal()`, which is false at zero (and at
every subnormal). -/
theorem C2_counterexample :
    Number.fromFloat (.fin 0) ≠ some (.int 0) ∧
      Number.fromFloat (.fin 0) = some (.float (.fin 0)) := by
  decide

/-- Claim C2 (corrected): `Number::from(f)` collapses to the `Integer`
representation exactly when `f` is a NORMAL whole number (zero, subnormals,
infinities and `NaN` all stay `Float`, as does any non-whole value); a normal
whole value within the `i64` range becomes `Integer` of that value, and a
normal whole value outside the `i64` range trips the internal
`assert!((f as i64 as f64) == f)` — a panic, not a `Float` result. -/
theorem C2_amended :
    (∀ q : ℚ, q = 0 ∨ |q| < minNormal ∨ q.den ≠ 1 →
        Number.fromFloat (.fin q) = some (.float (.fin q))) ∧
    (Number.fromFloat .inf = some (.float .inf) ∧
      Number.fromFloat .neginf = some (.float .neginf) ∧
      Number.fromFloat .nan = some (.float .nan)) ∧
    (∀ z : ℤ, z ≠ 0 → i64min ≤ z → z ≤ i64max →
        Number.fromFloat (.fin (z : ℚ)) = some (.int z)) ∧
    (∀ z : ℤ, z < i64min ∨ i64max < z → z.natAbs < 2 ^ 1024 →
        Number.fromFloat (.fin (z : ℚ)) = none) := by
  refine ⟨?_, ⟨rfl, rfl, rfl⟩, fromFloat_intCast, fromFloat_intCast_out⟩
  intro q h
  rcases h with h | h | h
  · rw [h]
    exact fromFloat_zero
  · have hsub : ¬ q.den ≤ 2 ^ 1022 * q.num.natAbs := by
      rw [← minNormal_le_abs_iff]
      exact not_le.mpr h
    apply fromFloat_notNormalWhole
    simp [F64.isNormal, hsub]
  · exact fromFloat_nonwhole q h

/-- Claim C2, witness: `Number::from(3.0) = Integer(3)`,
`Number::from(0.5)` stays Float, and `Number::from(2^64 as a whole float)`
panics (models the failed assert). -/
theorem C2_witness :
    Number.fromFloat (.fin (((3 : ℤ) : ℚ))) = some (.int 3) ∧
      Number.fromFloat (.fin (mkRat 1 2)) = some (.float (.fin (mkRat 1 2))) ∧
      Number.fromFloat (.fin (((2 ^ 64 : ℤ) : ℚ))) = none := by
  refine ⟨C2_amended.2.2.1 3 (by decide) (by decide) (by decide), ?_, ?_⟩
  · exact C2_amended.1 (mkRat 1 2) (Or.inr (Or.inr (by decide)))
  · exact C2_amended.2.2.2 (2 ^ 64) (Or.inr (by decide)) (by decide)

/-! ### Claim C3 (bitwise operations discard their result) -/

/-- Claim C3 (confirmed): for two Integer-represented operands every binary
bitwise operation returns `Ok` of the LEFT operand unchanged — the
macro-generated in-place helper mutates a pattern-bound local copy (`mut n`)
of the matched integer, so the computed result is never stored. -/
theorem C3_bitwise_identity (n m : Int) :
    Number.bitand (.int n) (.int m) = .ok (.int n) ∧
      Number.bitor (.int n) (.int m) = .ok (.int n) ∧
      Number.bitxor (.int n) (.int m) = .ok (.int n) ∧
      Number.shl (.int n) (.int m) = .ok (.int n) ∧
      Number.shr (.int n) (.int m) = .ok (.int n) :=
  ⟨rfl, rfl, rfl, rfl, rfl⟩

/-! ### Claim C4 (`pow`) -/

/-- Claim C4, counterexample: at base `2^33` (outside the u32 range) and
exponent `2`, `pow_assign` takes the integer-exponentiation path (the
source's guard checks only the exponent), wrapping to `Integer(0)`; the
claim's guard ("both operands non-negative within u32 range") would instead
take the `powf` fallback, which panics in `Number::from` (`none`). -/
theorem C4_counterexample :
    Number.powAssign (.int (2 ^ 33)) (.int 2) = some (.int 0) ∧
      Number.powAssignSpec (.int (2 ^ 33)) (.int 2) = none ∧
      Number.powAssign (.int (2 ^ 33)) (.int 2) ≠
        Number.powAssignSpec (.int (2 ^ 33)) (.int 2) := by
  decide

/-- Claim C4 (corrected): `pow_assign` uses integer exponentiation exactly
when BOTH operands are integer-represented and the EXPONENT is in
`[0, u32::MAX]` — the base is unconstrained (and the integer path wraps on
`i64` overflow); in every other case both operands are promoted to float and
the result is `powf(..)` fed through `Number::from`. -/
theorem C4_amended :
    (∀ l r : Int, 0 ≤ r → r ≤ u32max →
        Number.powAssign (.int l) (.int r) = some (.int (wrap64 (l ^ r.toNat)))) ∧
    (∀ l r : Int, ¬(0 ≤ r ∧ r ≤ u32max) →
        Number.powAssign (.int l) (.int r) =
          Number.fromFloat (F64.fpow (intToF l) (intToF r))) ∧
    (∀ a b : Number, a.isFloat = true ∨ b.isFloat = true →
        Number.powAssign a b =
          Number.fromFloat (F64.fpow a.promote b.promote)) := by
  refine ⟨?_, ?_, ?_⟩
  · intro l r h0 h1
    simp only [Number.powAssign]
    rw [if_pos ⟨h0, h1⟩]
  · intro l r h
    simp only [Number.powAssign]
    rw [if_neg h]
  · intro a b hf
    cases a with
    | int l =>
        cases b with
        | int r => simp [Number.isFloat] at hf
        | float g => simp [Number.powAssign, Number.promote]
    | float f =>
        cases b with
        | int r => simp [Number.powAssign, Number.promote]
        | float g => simp [Number.powAssign, Number.promote]

/-- Claim C4, witness: a NEGATIVE base with a small exponent still takes the
integer path (`(-2) ** 3 = Integer(-8)`), and a float exponent falls back to
`powf`. -/
theorem C4_witness :
    Number.powAssign (.int (-2)) (.int 3) = some (.int (wrap64 ((-2) ^ ((3 : ℤ)).toNat))) ∧
      Number.powAssign (.int 2) (.float (.fin (mkRat 1 2))) =
        Number.fromFloat (F64.fpow (Number.promote (.int 2))
          (Number.promote (.float (.fin (mkRat 1 2))))) := by
  exact ⟨C4_amended.1 (-2) 3 (by decide) (by decide),
    C4_amended.2.2 (.int 2) (.float (.fin (mkRat 1 2))) (Or.inr (by decide))⟩

/-! ### Claim C9 (`Ord for Number`) -/

theorem icmp_eq_qcmp (l r : ℤ) : icmp l r = qcmp ((l : ℚ)) ((r : ℚ)) := by
  unfold icmp qcmp
  simp only [Int.cast_lt, Int.cast_inj]

/-- Claim C9 (confirmed): `Number::cmp` reaches the `expect` panic branch
(modelled `none`) exactly when an operand is the float `NaN`; on every other
pair it returns the total order of the exact numeric values, an integer
operand being promoted to float when the other operand is a float. -/
theorem C9_cmp_total_or_panic (a b : Number) :
    (Number.cmp a b = none ↔ a.isNan = true ∨ b.isNan = true) ∧
    (a.isNan = false → b.isNan = false →
      Number.cmp a b = some (ERat.ecmp a.xval b.xval)) := by
  cases a with
  | int l =>
      cases b with
      | int r =>
          refine ⟨by simp [Number.cmp, Number.isNan], fun _ _ => ?_⟩
          simp [Number.cmp, Number.xval, ERat.ecmp, icmp_eq_qcmp]
      | float g =>
          cases g <;>
            simp [Number.cmp, Number.isNan, Number.xval, ERat.ecmp, F64.partialCmp, intToF]
  | float f =>
      cases b with
      | int r =>
          cases f <;>
            simp [Number.cmp, Number.isNan, Number.xval, ERat.ecmp, F64.partialCmp, intToF]
      | float g =>
          cases f <;> cases g <;>
            simp [Number.cmp, Number.isNan, Number.xval, ERat.ecmp, F64.partialCmp]

/-- Claim C9, witness: a concrete mixed comparison (`3 <=> 0.5` is `Gt`) and
a concrete `NaN` comparison reaching the panic branch. -/
theorem C9_witness :
    Number.cmp (.int 3) (.float (.fin (mkRat 1 2))) =
        some (ERat.ecmp ((Number.int 3).xval) ((Number.float (.fin (mkRat 1 2))).xval)) ∧
      Number.cmp (.int 3) (.float .nan) = none := by
  refine ⟨(C9_cmp_total_or_panic (.int 3) (.float (.fin (mkRat 1 2)))).2
    (by decide) (by decide), ?_⟩
  exact (C9_cmp_total_or_panic (.int 3) (.float .nan)).1.mpr (Or.inr (by decide))

/-! ### Claim C5 (`Boolean` XOR) -/

/-- Claim C5 (code bug), evaluation at the failing input: for two DISTINCT
`true` Booleans, `^=` stores `true` — the non-identical branch of
`BitXorAssign` computes `lhs.0 |= rhs.0` (OR) instead of `^=`, contradicting
the source's own comment (`true ^ true = false`, boolean.rs:429) and the
spec's XOR truth table — while the plain `^` operator does return the XOR
(`false`), and the identical-receiver branch correctly stores `false`. -/
theorem C5_xor_assign_bug :
    booleanBitXorAssign ⟨0, .boolean true, none, none⟩ ⟨1, .boolean true, none, none⟩ =
        .ok ⟨0, .boolean true, none, none⟩ ∧
      booleanBitXor ⟨0, .boolean true, none, none⟩ ⟨1, .boolean true, none, none⟩ =
        .ok false ∧
      xor true true = false ∧
      booleanBitXorAssign ⟨0, .boolean true, none, none⟩ ⟨0, .boolean true, none, none⟩ =
        .ok ⟨0, .boolean false, none, none⟩ := by
  decide

/-! ### Claim C6 (number parsing) -/

theorem dropWhile_self_idem {α : Type} (p : α → Bool) (l : List α) :
    (l.dropWhile p).dropWhile p = l.dropWhile p := by
  induction l with
  | nil => rfl
  | cons a t ih =>
      by_cases h : p a
      · simp [List.dropWhile_cons, h, ih]
      · simp [List.dropWhile_cons, h]

theorem dropWhile_eq_self_of_prefix {p : Char → Bool} {x y : List Char}
    (hpre : y <+: x) (hx : x.dropWhile p = x) : y.dropWhile p = y := by
  cases y with
  | nil => rfl
  | cons a t =>
      obtain ⟨rest, hrest⟩ := hpre
      have hpa : p a = false := by
        by_contra hcon
        have hpa' : p a = true := by
          cases hval : p a
          · exact absurd hval hcon
          · rfl
        rw [← hrest, List.cons_append, List.dropWhile_cons, if_pos hpa'] at hx
        have hlen := congrArg List.length hx
        have hle : (List.dropWhile p (t ++ rest)).length ≤ (t ++ rest).length :=
          (List.dropWhile_suffix (l := t ++ rest) p).sublist.length_le
        simp only [List.length_cons, List.length_append] at hlen hle
        omega
      simp [List.dropWhile_cons, hpa]

theorem trimStr_idem (l : List Char) : trimStr (trimStr l) = trimStr l := by
  unfold trimStr
  have hmdrop : (l.dropWhile isWs).dropWhile isWs = l.dropWhile isWs :=
    dropWhile_self_idem isWs l
  have hpref : (((l.dropWhile isWs).reverse.dropWhile isWs).reverse) <+: l.dropWhile isWs := by
    have h := List.reverse_prefix.mpr
      (List.dropWhile_suffix (l := (l.dropWhile isWs).reverse) isWs)
    simpa using h
  have h1 : (((l.dropWhile isWs).reverse.dropWhile isWs).reverse).dropWhile isWs =
      ((l.dropWhile isWs).reverse.dropWhile isWs).reverse :=
    dropWhile_eq_self_of_prefix hpref hmdrop
  rw [h1, List.reverse_reverse, dropWhile_self_idem]

theorem removeUnderscores_eq_self {l : List Char} (h : '_' ∉ l) :
    removeUnderscores l = l := by
  rw [removeUnderscores, List.filter_eq_self]
  intro a ha
  have : a ≠ '_' := fun hc => h (hc ▸ ha)
  simp [this]

/-- Claim C6, counterexample: `from_str_radix` does NOT strip `_` digit
separators — `from_str_radix("1_0", 10)` fails with `BadInteger` while the
underscore-free `from_str_radix("10", 10)` succeeds, so the claimed
underscore acceptance fails. -/
theorem C6_counterexample :
    Number.fromStrRadix "1_0".toList 10 ≠ Number.fromStrRadix "10".toList 10 ∧
      Number.fromStrRadix "1_0".toList 10 = .error (.badInteger .invalidDigit) ∧
      Number.fromStrRadix "10".toList 10 = .ok (.int 10) := by
  decide

/-- Claim C6 (corrected): `try_from` trims whitespace and strips every `_`
before parsing (for any input it equals the plain pipeline on the trimmed,
underscore-free text), and `try_from("1_000_000") = Ok(1000000)`;
`from_str_radix` returns `BadRadix(r)` exactly when `r` is outside `[2, 36]`
and for `r` in range parses the trimmed input as an integer in radix `r`
(`from_str_radix("ff1e24", 16) = Ok(0xff1e24)`), but it does NOT strip
underscores (`from_str_radix("1_0", 10)` is a `BadInteger` error). -/
theorem C6_amended :
    (∀ s : List Char,
        Number.tryFrom s = parseIntFloat (trimStr (removeUnderscores (trimStr s)))) ∧
    (∀ (s : List Char) (r : Nat),
        Number.fromStrRadix s r = .error (.badRadix r) ↔ r < 2 ∨ 36 < r) ∧
    Number.fromStrRadix "ff1e24".toList 16 = .ok (.int 0xff1e24) ∧
    Number.fromStrRadix "1_0".toList 10 = .error (.badInteger .invalidDigit) ∧
    Number.tryFrom "1_000_000".toList = some (.ok (.int 1000000)) := by
  refine ⟨?_, ?_, by decide, by decide, by decide⟩
  · intro s
    by_cases h : '_' ∈ trimStr s
    · simp [Number.tryFrom, h]
    · simp [Number.tryFrom, h, removeUnderscores_eq_self h, trimStr_idem]
  · intro s r
    by_cases h : r < 2 ∨ 36 < r
    · simp [Number.fromStrRadix, h]
    · cases hp : parseI64Radix (trimStr s) r with
      | ok n => simp [Number.fromStrRadix, if_neg h, hp, h]
      | error e => simp [Number.fromStrRadix, if_neg h, hp, h]

/-! ### Claim C8 (`==` does not coerce) -/

/-- Claim C8 (confirmed): the `==` implementations never consult the
argument's conversion protocol — their result depends only on the argument's
payload (and identity, for `Boolean`): a receiver holding a `Number` answers
`false` whenever the argument does not already hold a `Number`, and value
equality (the source's `PartialEq`) when it does; `Boolean` answers `true`
for an identical argument and otherwise compares the un-coerced downcast;
the blanket `QsEql` bridge behaves likewise for any payload type. -/
theorem C8_eql_no_coercion :
    (∀ this arg arg' : Obj, arg.payload = arg'.payload →
        numberEql this arg = numberEql this arg') ∧
    (∀ this arg arg' : Obj, arg.id = arg'.id → arg.payload = arg'.payload →
        booleanEql this arg = booleanEql this arg') ∧
    (∀ (this arg : Obj) (n : Number), downcastNum this = some n →
        downcastNum arg = none → numberEql this arg = .ok false) ∧
    (∀ (this arg : Obj) (n m : Number), downcastNum this = some n →
        downcastNum arg = some m → numberEql this arg = .ok (Number.beq n m)) ∧
    (∀ this arg : Obj, this.id = arg.id → booleanEql this arg = .ok true) ∧
    (∀ (this arg : Obj) (lhs : Bool), this.id ≠ arg.id →
        downcastBool this = some lhs → downcastBool arg = none →
        booleanEql this arg = .ok false) ∧
    (∀ (this arg : Obj) (lhs rhs : Bool), this.id ≠ arg.id →
        downcastBool this = some lhs → downcastBool arg = some rhs →
        booleanEql this arg = .ok (decide (lhs = rhs))) ∧
    (∀ (α : Type) (instα : DecidableEq α) (downcast : Obj → Option α)
        (self : α) (arg : Obj),
        (downcast arg = none → @qsEql α instα downcast self arg = false) ∧
        (∀ v, downcast arg = some v →
          @qsEql α instα downcast self arg = decide (self = v))) := by
  refine ⟨?_, ?_, ?_, ?_, ?_, ?_, ?_, ?_⟩
  · intro this arg arg' hpl
    simp [numberEql, downcastNum, hpl]
  · intro this arg arg' hid hpl
    simp [booleanEql, downcastBool, hid, hpl]
  · intro this arg n h1 h2
    simp [numberEql, h1, h2]
  · intro this arg n m h1 h2
    simp [numberEql, h1, h2]
  · intro this arg hid
    simp [booleanEql, hid]
  · intro this arg lhs hid h1 h2
    simp [booleanEql, hid, h1, h2]
  · intro this arg lhs rhs hid h1 h2
    simp [booleanEql, hid, h1, h2]
  · intro α instα downcast self arg
    constructor
    · intro h
      simp [qsEql, h]
    · intro v h
      simp [qsEql, h]

/-- Claim C8, witness: a `Number` receiver compared with a `Boolean`
argument that even carries a `@num` conversion answer is still `false` (the
conversion is ignored); value equality holds between two `Number` payloads
across representations; identical Booleans compare `true`. -/
theorem C8_witness :
    numberEql ⟨0, .num (.int 1), none, none⟩ ⟨1, .boolean true, some (.int 1), some true⟩ =
        .ok false ∧
      numberEql ⟨0, .num (.int 1), none, none⟩ ⟨1, .num (.int 1), none, none⟩ =
        .ok (Number.beq (.int 1) (.int 1)) ∧
      booleanEql ⟨2, .boolean true, none, none⟩ ⟨2, .boolean true, none, none⟩ = .ok true := by
  refine ⟨C8_eql_no_coercion.2.2.1 _ _ (.int 1) (by decide) (by decide), ?_, ?_⟩
  · exact C8_eql_no_coercion.2.2.2.1 _ _ (.int 1) (.int 1) (by decide) (by decide)
  · exact C8_eql_no_coercion.2.2.2.2.1 _ _ (by decide)

/-! ### Claims C7 and C10 (`Parents`) -/

/-- Claim C7 (confirmed): every `Parents` read operation depends only on the
parent list held by the representation (all three states go through the same
`with_iter` search), so promoting via `to_object` — from `None`, `Builtin`,
or `Object` — never changes the result of any subsequent read. -/
theorem C7_parents_read_transparency (env : PEnv) (p : PInner) (k : String)
    (ko : Nat) (fresh : Nat) :
    (Parents.keys ((Parents.toObject p fresh).2) = Parents.keys p ∧
      Parents.hasLit env ((Parents.toObject p fresh).2) k = Parents.hasLit env p k ∧
      Parents.getLit env ((Parents.toObject p fresh).2) k = Parents.getLit env p k ∧
      Parents.hasObj env ((Parents.toObject p fresh).2) ko = Parents.hasObj env p ko ∧
      Parents.getObj env ((Parents.toObject p fresh).2) ko = Parents.getObj env p ko) ∧
    (Parents.keys p = .ok p.plist ∧
      Parents.hasLit env p k = hasLitLoop env k p.plist ∧
      Parents.getLit env p k = getLitLoop env k p.plist ∧
      Parents.hasObj env p ko = hasObjLoop env ko p.plist ∧
      Parents.getObj env p ko = getObjLoop env ko p.plist) := by
  have hW : ∀ {R : Type} (q : PInner) (f : List Nat → Except QErr R),
      q.withIter f = f q.plist := by
    intro R q f
    cases q <;> rfl
  have hT : ((Parents.toObject p fresh).2).plist = p.plist := by
    cases p <;> rfl
  refine ⟨⟨?_, ?_, ?_, ?_, ?_⟩, ⟨?_, ?_, ?_, ?_, ?_⟩⟩ <;>
    simp [Parents.keys, Parents.hasLit, Parents.getLit, Parents.hasObj, Parents.getObj,
      hW, hT]

/-- Claim C10 (confirmed): the `Parents` representation only moves forward
along `None → Builtin → Object` (`rank` is non-decreasing under both
operations, and the `Object` state is a fixed point holding its identity);
`to_object` is idempotent — a second call returns the same holder object and
leaves the state unchanged — and `add_parent` succeeds in every state,
appending the new parent after all existing ones and converting
`None → Builtin` on the first add. -/
theorem C10_parents_state_machine (p : PInner) (x : Nat) (fresh fresh' : Nat) :
    ((Parents.addParent p x).plist = p.plist ++ [x]) ∧
    (Parents.addParent .pnone x = .builtin [x]) ∧
    (p.rank ≤ (Parents.addParent p x).rank) ∧
    (p.rank ≤ ((Parents.toObject p fresh).2).rank) ∧
    (∀ oid v, Parents.addParent (.object oid v) x = .object oid (v ++ [x])) ∧
    (∀ oid v, Parents.toObject (.object oid v) fresh = (oid, .object oid v)) ∧
    (Parents.toObject ((Parents.toObject p fresh).2) fresh' =
      ((Parents.toObject p fresh).1, (Parents.toObject p fresh).2)) := by
  refine ⟨?_, rfl, ?_, ?_, fun oid v => rfl, fun oid v => rfl, ?_⟩ <;>
    cases p <;> simp [Parents.addParent, Parents.toObject, PInner.plist, PInner.rank]

end Quest
